import Mathlib

/-!
Verification of the command-orchestration layer of a Python HDFS CLI
(`python/hdfs_native/cli.py`).  The external Filesystem Client, the local
OS filesystem and `urllib.parse.urlparse` are modelled at their interface
boundaries: a URL is taken in already-parsed form (the fields `urlparse`
produces), remote and local filesystems are explicit environments, and
each command is embedded as a pure function returning the sequence of
collaborator calls it issues together with its error outcome.
-/

namespace HdfsCli

/-- Errors raised by the orchestration layer.  Each constructor corresponds
to one `raise` site in `cli.py` (ValueError / FileExistsError /
FileNotFoundError), carrying the data interpolated into the message. -/
inductive CliError where
  | invalidMode (s : String)
  | invalidOwner (s : String)
  | hostWithoutScheme (h : String)
  | nameserviceMismatch (a b : String)
  | fileExists (p : String)
  | notFound (p : String)
  | multiSourceNotDir
  deriving DecidableEq, Repr

/-- `FileStatus` as returned by the external Filesystem Client:
path, isdir, numeric permission, and millisecond-epoch timestamps. -/
structure FileStatus where
  path : String
  isdir : Bool
  permission : Nat
  access_time : Nat
  modification_time : Nat
  deriving DecidableEq, Repr

/-- The result of `urlparse` on a command-line URL, restricted to the
fields `cli.py` reads: `scheme` (the empty string when absent, as in
Python), `hostname` (`None` or a string), `port` (`None` or an integer)
and `path`. -/
structure Url where
  scheme : String
  host : Option String
  port : Option Nat
  path : String
  deriving DecidableEq, Repr

/-- Python truthiness of `parsed.hostname` (`None` and `""` are falsy). -/
def hostTruthy : Option String → Bool
  | none => false
  | some h => h ≠ ""

/-- Python truthiness of `parsed.port` (`None` and `0` are falsy). -/
def portTruthy : Option Nat → Bool
  | none => false
  | some p => p ≠ 0

/-- Rendering of `parsed.hostname` inside a Python f-string
(`None` renders as the four characters `None`). -/
def hostRepr : Option String → String
  | none => "None"
  | some h => h

/-- The `:port` suffix appended by `_client_for_url` when `parsed.port`
is truthy. -/
def portRepr : Option Nat → String
  | none => ""
  | some p => if p = 0 then "" else ":" ++ toString p

/-- The serialized connection string `f"{scheme}://{hostname}"` plus the
optional `:port` suffix built by `_client_for_url`. -/
def connStr (u : Url) : String :=
  u.scheme ++ "://" ++ hostRepr u.host ++ portRepr u.port

/-- The `functools.cache` on `_get_client`: a process-wide map from the
optional connection-string argument to the `Client` instance created for
it.  Client instances are modelled by creation sequence numbers, so
"same instance" is equality of numbers. -/
structure CacheState where
  entries : List (Option String × Nat)
  next : Nat
  deriving DecidableEq, Repr

/-- Association-list lookup used by the client cache. -/
def cacheLookup : List (Option String × Nat) → Option String → Option Nat
  | [], _ => none
  | (k, v) :: rest, key => if k = key then some v else cacheLookup rest key

/-- `_get_client(connection_url)`: return the cached client for this key,
or create a fresh one and cache it (`functools.cache` semantics). -/
def getClient (st : CacheState) (key : Option String) : CacheState × Nat :=
  match cacheLookup st.entries key with
  | some i => (st, i)
  | none => (⟨(key, st.next) :: st.entries, st.next + 1⟩, st.next)

/-- `_client_for_url(url)`: with a scheme, serialize `scheme://host[:port]`
and fetch the cached client for that string; with no scheme but a truthy
host or port, raise; otherwise fetch the cached default client. -/
def clientForUrl (st : CacheState) (u : Url) : CacheState × Except CliError Nat :=
  if u.scheme = "" then
    if hostTruthy u.host || portTruthy u.port then
      (st, .error (.hostWithoutScheme (hostRepr u.host)))
    else
      let r := getClient st none
      (r.1, .ok r.2)
  else
    let r := getClient st (some (connStr u))
    (r.1, .ok r.2)

/-- The error behavior of `_client_for_url`, which is independent of the
cache state (the state only selects which instance is returned): `some e`
when resolution raises, `none` when it returns a client. -/
def urlCheck (u : Url) : Option CliError :=
  if u.scheme = "" then
    if hostTruthy u.host || portTruthy u.port then
      some (.hostWithoutScheme (hostRepr u.host))
    else none
  else none

/-- `os.path.basename` for POSIX paths: the suffix after the last `/`
(written as a left fold, matching `p[p.rfind(chr(47))+1:]`). -/
def basenameChars (cs : List Char) : List Char :=
  cs.foldl (fun acc c => if c = '/' then [] else acc ++ [c]) []

/-- `os.path.basename` on strings. -/
def basename (s : String) : String :=
  String.mk (basenameChars s.data)

/-- Whether a string starts with `/` (used by `posixpath.join`). -/
def startsSlash (s : String) : Bool :=
  match s.data with
  | c :: _ => c = '/'
  | [] => false

/-- Whether a string ends with `/` (used by `posixpath.join`). -/
def endsSlash (s : String) : Bool :=
  match s.data.getLast? with
  | some c => c = '/'
  | none => false

/-- Two-argument `os.path.join` for POSIX paths: an absolute second
component replaces the first; otherwise a `/` separator is inserted
unless the first component is empty or already ends in `/`. -/
def joinPath (a b : String) : String :=
  if startsSlash b then b
  else if a = "" || endsSlash a then a ++ b
  else a ++ "/" ++ b

/-- `str.split` with the single-character separator `:`:
`splitColon []` is `[[]]` (Python's `[""]`), and each `:` starts a new
group. -/
def splitColon : List Char → List (List Char)
  | [] => [[]]
  | c :: rest =>
    if c = ':' then [] :: splitColon rest
    else
      match splitColon rest with
      | [] => [[c]]
      | g :: gs => (c :: g) :: gs

/-- Octal digit test, the character class `0-7` of the mode regex. -/
def isOctDigit (c : Char) : Bool :=
  '0' ≤ c ∧ c ≤ '7'

/-- Full match of the regex `1?[0-7]{3}` from `chmod`: either exactly
three octal digits, or a literal `1` followed by exactly three. -/
def matchesModeRegex : List Char → Bool
  | [a, b, c] => isOctDigit a && isOctDigit b && isOctDigit c
  | ['1', a, b, c] => isOctDigit a && isOctDigit b && isOctDigit c
  | _ => false

/-- Base-8 numeral value of a digit string, `int(s, base=8)` on input the
regex has already validated. -/
def parseOct (cs : List Char) : Nat :=
  cs.foldl (fun acc c => acc * 8 + (c.toNat - '0'.toNat)) 0

/-- The mode-validation prefix of `chmod`: reject unless the whole string
matches `1?[0-7]{3}`, then parse as base 8. -/
def parseMode (s : String) : Except CliError Nat :=
  if matchesModeRegex s.data then .ok (parseOct s.data)
  else .error (.invalidMode s)

/-- The owner/group-parsing prefix of `chown`: split on `:`; more than two
pieces is an error; one piece is `(owner, None)`; two pieces are
`(owner or None, group)` where an empty owner becomes `None`. -/
def parseOwner (s : String) : Except CliError (Option String × Option String) :=
  match splitColon s.data with
  | [o] => .ok (some (String.mk o), none)
  | [o, g] => .ok (if o = [] then none else some (String.mk o), some (String.mk g))
  | _ => .error (.invalidOwner s)

/-- The remote-filesystem environment: the external Filesystem Client's
responses.  `files` gives the byte content `client.read` streams (or
`none` when `read` raises not-found), `info` the `get_file_info` result
(`none` when it raises `FileNotFoundError`), `listStatus` the eager
sequence `list_status(path, recursive)` returns. -/
structure Env where
  files : String → Option (List Nat)
  info : String → Option FileStatus
  listStatus : String → Bool → List FileStatus

/-- A local file as the download path observes it: contents, access and
modification times in seconds (rationals, since Python divides the
millisecond timestamps with true division) and permission bits. -/
structure LocalFile where
  data : List Nat
  atime : ℚ
  mtime : ℚ
  perm : Nat
  deriving DecidableEq

/-- The local filesystem: a partial map from path to file. -/
def LocalFS := String → Option LocalFile

/-- `os.path.exists` for the paths this layer touches. -/
def localExists (fs : LocalFS) (p : String) : Bool :=
  (fs p).isSome

/-- Metadata the OS stamps on a file created by `open(path, "wb")`:
current times and the umask-derived mode.  Opaque parameters of the
model; the preserve branch overwrites all of them. -/
structure OsDefaults where
  atime : ℚ
  mtime : ℚ
  perm : Nat

/-- Writing `data` to `open(dst, "wb")`: the file at `dst` now holds
exactly the streamed bytes, with OS-default metadata. -/
def fsWrite (os : OsDefaults) (fs : LocalFS) (dst : String) (data : List Nat) : LocalFS :=
  fun q => if q = dst then some ⟨data, os.atime, os.mtime, os.perm⟩ else fs q

/-- `os.utime(path, (atime, mtime))`. -/
def fsUtime (fs : LocalFS) (p : String) (at' mt : ℚ) : LocalFS :=
  fun q =>
    if q = p then (fs p).map (fun f => ⟨f.data, at', mt, f.perm⟩) else fs q

/-- `os.chmod(path, mode)`. -/
def fsChmodLocal (fs : LocalFS) (p : String) (mode : Nat) : LocalFS :=
  fun q =>
    if q = p then (fs p).map (fun f => ⟨f.data, f.atime, f.mtime, mode⟩) else fs q

/-- The remote calls a download issues, in order. -/
inductive RemoteOp where
  | read (p : String)
  | getFileInfo (p : String)
  deriving DecidableEq, Repr

/-- Outcome of `_download_file`: the remote calls issued before returning
or raising, the resulting local filesystem, and the error if any. -/
structure DLResult where
  ops : List RemoteOp
  fs : LocalFS
  err : Option CliError

/-- `_download_file(client, remote_src, local_dst, force, preserve)`:
refuse an existing destination unless forced (before any remote call);
otherwise stream the remote contents into a fresh local file; with
`preserve`, then fetch `FileStatus` and stamp the remote times
(milliseconds divided by 1000) and permission onto the local file. -/
def downloadFile (env : Env) (os : OsDefaults) (fs : LocalFS)
    (src dst : String) (force preserve : Bool) : DLResult :=
  if !force && localExists fs dst then ⟨[], fs, some (.fileExists dst)⟩
  else
    match env.files src with
    | none => ⟨[.read src], fs, some (.notFound src)⟩
    | some data =>
      let fs1 := fsWrite os fs dst data
      if preserve then
        match env.info src with
        | none => ⟨[.read src, .getFileInfo src], fs1, some (.notFound src)⟩
        | some st =>
          ⟨[.read src, .getFileInfo src],
           fsChmodLocal
             (fsUtime fs1 dst ((st.access_time : ℚ) / 1000) ((st.modification_time : ℚ) / 1000))
             dst st.permission,
           none⟩
      else ⟨[.read src], fs1, none⟩

/-- `_upload_file(client, local_src, remote_dst, force, preserve)`: open
the local file (raising not-found when absent) and copy its bytes into a
remote stream created at `remote_dst`.  The `force` and `preserve`
parameters are accepted but never read, exactly as in the source. -/
def uploadFile (fs : LocalFS) (remote : String → Option (List Nat))
    (src dst : String) (_force _preserve : Bool) :
    (String → Option (List Nat)) × Option CliError :=
  match fs src with
  | none => (remote, some (.notFound src))
  | some f => (fun q => if q = dst then some f.data else remote q, none)

/-- `_glob_path(client, glob)`: the stub returns the single-element list
holding the pattern unchanged. -/
def globPath (pattern : String) : List String :=
  [pattern]

/-- The body of `chmod` after mode validation: for each URL, resolve the
client (whose only observable effect here is a possible raise), expand
the glob, and issue `set_permission` calls — over the recursive listing
when `recursive`, else on the path itself.  Returns the calls issued
before any raise, and the error if one occurred. -/
def chmodRun (env : Env) (recursive : Bool) (perm : Nat) :
    List Url → List (String × Nat) × Option CliError
  | [] => ([], none)
  | u :: rest =>
    match urlCheck u with
    | some e => ([], some e)
    | none =>
      let calls := (globPath u.path).flatMap fun path =>
        if recursive then (env.listStatus path true).map (fun st => (st.path, perm))
        else [(path, perm)]
      let r := chmodRun env recursive perm rest
      (calls ++ r.1, r.2)

/-- `chmod(args)`: validate and parse the octal mode first (raising
before any client interaction), then apply it to every path. -/
def chmodCmd (env : Env) (recursive : Bool) (octalmode : String)
    (urls : List Url) : List (String × Nat) × Option CliError :=
  match parseMode octalmode with
  | .error e => ([], some e)
  | .ok perm => chmodRun env recursive perm urls

/-- The body of `chown` after owner parsing: one `set_owner(path, owner,
group)` call per listed path (recursive listing when `recursive`). -/
def chownRun (env : Env) (recursive : Bool) (owner group : Option String) :
    List Url → List (String × Option String × Option String) × Option CliError
  | [] => ([], none)
  | u :: rest =>
    match urlCheck u with
    | some e => ([], some e)
    | none =>
      let calls := (globPath u.path).flatMap fun path =>
        if recursive then (env.listStatus path true).map (fun st => (st.path, owner, group))
        else [(path, owner, group)]
      let r := chownRun env recursive owner group rest
      (calls ++ r.1, r.2)

/-- `chown(args)`: split the `owner[:group]` argument first (raising
before any client interaction), then apply it to every path. -/
def chownCmd (env : Env) (recursive : Bool) (ownerArg : String)
    (urls : List Url) : List (String × Option String × Option String) × Option CliError :=
  match parseOwner ownerArg with
  | .error e => ([], some e)
  | .ok (owner, group) => chownRun env recursive owner group urls

/-- Split a character list at the first character satisfying `p`: the
prefix before it and the rest starting with it (`str.find` plus slicing). -/
def spanUntil (p : Char → Bool) : List Char → List Char × List Char
  | [] => ([], [])
  | c :: rest =>
    if p c then ([], c :: rest)
    else
      let r := spanUntil p rest
      (c :: r.1, r.2)

/-- `scheme_chars` of `urllib.parse`: ASCII letters, digits, `+`, `-`,
`.`. -/
def schemeChar (c : Char) : Bool :=
  c.isAlpha || c.isDigit || c = '+' || c = '-' || c = '.'

/-- The path component `urlparse(s).path` computes, as in cpython's
`urlsplit`: remove tab/CR/LF; strip `scheme:` when the text before the
first colon is non-empty, starts with an ASCII letter and consists of
scheme characters; after a leading `//` drop the netloc (up to the next
`/`, `?` or `#`); then drop a `#` fragment and a `?` query.  Not
modelled: the `ValueError`s `urlsplit` raises while validating a netloc
containing square brackets (IPv6/IPvFuture parsing via `ipaddress`) or
exotic unicode — on such netlocs this function returns the path
`urlsplit` computes when those validations pass. -/
def urlparsePathChars (cs : List Char) : List Char :=
  let cs := cs.filter fun c => !(c == '\t' || c == '\r' || c == '\n')
  let cs :=
    match spanUntil (fun c => c = ':') cs with
    | (before, ':' :: after) =>
      if (match before with | c :: _ => c.isAlpha | [] => false) &&
          before.all schemeChar then after
      else cs
    | _ => cs
  let cs :=
    match cs with
    | '/' :: '/' :: rest => (spanUntil (fun c => c = '/' || c = '?' || c = '#') rest).2
    | _ => cs
  let cs := (spanUntil (fun c => c = '#') cs).1
  (spanUntil (fun c => c = '?') cs).1

/-- `_path_for_url(url)` on an arbitrary string, i.e. `urlparse(url).path`.
The `mv` rename loop applies this a second time to each already-resolved
source path. -/
def urlparsePath (s : String) : String :=
  String.mk (urlparsePathChars s.data)

/-- The identity string `f"{scheme}://{hostname}"` used in the
nameservice-mismatch error message. -/
def identStr (u : Url) : String :=
  u.scheme ++ "://" ++ hostRepr u.host

/-- `_verify_nameservices_match(url, *urls)`: compare each URL's scheme
and hostname against the first's (port is not compared); raise on the
first mismatch, naming both identities. -/
def verifyNameservicesMatch (first : Url) : List Url → Option CliError
  | [] => none
  | u :: rest =>
    if first.scheme ≠ u.scheme ∨ first.host ≠ u.host then
      some (.nameserviceMismatch (identStr first) (identStr u))
    else verifyNameservicesMatch first rest

/-- `mv(args)`: verify all sources share the destination's nameservice,
resolve the destination client, probe whether the destination is an
existing directory (a not-found probe means "not a directory"), expand
the sources, reject multiple sources into a non-directory, then compute
one `rename(src_path, target_path)` call per source in order, where
`src_path = _path_for_url(src)` re-parses the resolved source through
`urlparse` a second time — the identity for ordinary absolute paths but
not in general (a leading `//` or a scheme-like `name:` prefix is
stripped) — joining the re-parsed path's basename onto a directory
destination, else using the destination path verbatim.  Returns the
rename calls and the error if one was raised (no renames are issued
before a raise, since every raise in `mv` precedes the rename loop). -/
def mvCmd (env : Env) (srcs : List Url) (dst : Url) :
    List (String × String) × Option CliError :=
  match verifyNameservicesMatch dst srcs with
  | some e => ([], some e)
  | none =>
    match urlCheck dst with
    | some e => ([], some e)
    | none =>
      let dstPath := dst.path
      let dstIsdir :=
        match env.info dstPath with
        | some st => st.isdir
        | none => false
      let resolved := srcs.flatMap fun u => globPath u.path
      if decide (resolved.length > 1) && !dstIsdir then ([], some .multiSourceNotDir)
      else
        (resolved.map fun p =>
          let srcPath := urlparsePath p
          (srcPath, if dstIsdir then joinPath dstPath (basename srcPath) else dstPath),
         none)

/-! ### Shared lemmas -/

/-- A second `_get_client` call with the same key returns the client the
first call returned (`functools.cache` hit). -/
theorem getClient_repeat (st : CacheState) (key : Option String) :
    (getClient (getClient st key).1 key).2 = (getClient st key).2 := by
  cases h : cacheLookup st.entries key with
  | some i => simp [getClient, h]
  | none => simp [getClient, h, cacheLookup]

/-- `str.split` never returns an empty list. -/
theorem splitColon_ne_nil (cs : List Char) : splitColon cs ≠ [] := by
  induction cs with
  | nil => simp [splitColon]
  | cons c rest ih =>
    by_cases hc : c = ':'
    · simp [splitColon, hc]
    · cases h : splitColon rest with
      | nil => exact absurd h ih
      | cons g gs => simp [splitColon, hc, h]

/-- The number of pieces `str.split` on `:` produces is one more than the
number of colons. -/
theorem splitColon_length (cs : List Char) :
    (splitColon cs).length = cs.count ':' + 1 := by
  induction cs with
  | nil => simp [splitColon]
  | cons c rest ih =>
    by_cases hc : c = ':'
    · simp [splitColon, hc, ih, List.count_cons]
    · cases h : splitColon rest with
      | nil => exact absurd h (splitColon_ne_nil rest)
      | cons g gs =>
        have := ih
        rw [h] at this
        simp [splitColon, hc, h, List.count_cons, Ne.symm hc, ← this]

/-- Splitting a colon-free string on `:` returns the single piece. -/
theorem splitColon_no_colon (cs : List Char) (h : ':' ∉ cs) :
    splitColon cs = [cs] := by
  induction cs with
  | nil => simp [splitColon]
  | cons c rest ih =>
    have hc : c ≠ ':' := fun hc => h (hc ▸ List.mem_cons_self c rest)
    have hr : ':' ∉ rest := fun hr => h (List.mem_cons_of_mem c hr)
    simp [splitColon, hc, ih hr]

/-- Splitting `owner:` (colon-free owner, trailing colon) yields the
owner piece and an empty group piece. -/
theorem splitColon_trailing (cs : List Char) (h : ':' ∉ cs) :
    splitColon (cs ++ [':']) = [cs, []] := by
  induction cs with
  | nil => simp [splitColon]
  | cons c rest ih =>
    have hc : c ≠ ':' := fun hc => h (hc ▸ List.mem_cons_self c rest)
    have hr : ':' ∉ rest := fun hr => h (List.mem_cons_of_mem c hr)
    simp [splitColon, hc, ih hr]

/-! ### Concrete environments used by witnesses -/

/-- An environment in which every remote call reports nothing. -/
def envEmpty : Env :=
  ⟨fun _ => none, fun _ => none, fun _ _ => []⟩

/-- OS defaults used by concrete download witnesses. -/
def osZero : OsDefaults := ⟨0, 0, 0⟩

/-- An empty local filesystem. -/
def fsEmpty : LocalFS := fun _ => none

/-! ### C1 — client caching by serialized connection string -/

/-- The claim's acceptance set for `chmod` modes, stated from the spec's
words: an optional single leading `1` followed by exactly three octal
digits `0`-`7`. -/
def specModeShape (cs : List Char) : Prop :=
  (∃ a b c, cs = [a, b, c] ∧
    ('0' ≤ a ∧ a ≤ '7') ∧ ('0' ≤ b ∧ b ≤ '7') ∧ ('0' ≤ c ∧ c ≤ '7')) ∨
  (∃ a b c, cs = ['1', a, b, c] ∧
    ('0' ≤ a ∧ a ≤ '7') ∧ ('0' ≤ b ∧ b ≤ '7') ∧ ('0' ≤ c ∧ c ≤ '7'))

/-- C1: two URLs with a scheme serializing to the same connection string
resolve, in sequence, to the identical client instance; and two URLs with
neither scheme, host nor port both resolve to the single cached default
client. -/
theorem client_cache_same_instance :
    (∀ (st : CacheState) (u₁ u₂ : Url), u₁.scheme ≠ "" → u₂.scheme ≠ "" →
      connStr u₁ = connStr u₂ →
      ∃ i, (clientForUrl st u₁).2 = .ok i ∧
        (clientForUrl (clientForUrl st u₁).1 u₂).2 = .ok i) ∧
    (∀ (st : CacheState) (u₁ u₂ : Url), u₁.scheme = "" → u₂.scheme = "" →
      hostTruthy u₁.host = false → hostTruthy u₂.host = false →
      portTruthy u₁.port = false → portTruthy u₂.port = false →
      ∃ i, (clientForUrl st u₁).2 = .ok i ∧
        (clientForUrl (clientForUrl st u₁).1 u₂).2 = .ok i) := by
  constructor
  · intro st u₁ u₂ h₁ h₂ hconn
    refine ⟨(getClient st (some (connStr u₁))).2, ?_, ?_⟩
    · simp [clientForUrl, h₁]
    · simp [clientForUrl, h₁, h₂, ← hconn, getClient_repeat]
  · intro st u₁ u₂ h₁ h₂ hh₁ hh₂ hp₁ hp₂
    refine ⟨(getClient st none).2, ?_, ?_⟩
    · simp [clientForUrl, h₁, hh₁, hp₁]
    · simp [clientForUrl, h₁, h₂, hh₁, hh₂, hp₁, hp₂, getClient_repeat]

/-- C1 witness: starting from an empty cache, `hdfs://nn:9000/a` and
`hdfs://nn:9000/b` resolve to one instance, and two bare paths resolve to
one default instance. -/
theorem client_cache_same_instance_witness :
    (∃ i, (clientForUrl ⟨[], 0⟩ ⟨"hdfs", some "nn", some 9000, "/a"⟩).2 = .ok i ∧
      (clientForUrl (clientForUrl ⟨[], 0⟩ ⟨"hdfs", some "nn", some 9000, "/a"⟩).1
        ⟨"hdfs", some "nn", some 9000, "/b"⟩).2 = .ok i) ∧
    (∃ i, (clientForUrl ⟨[], 0⟩ ⟨"", none, none, "/a"⟩).2 = .ok i ∧
      (clientForUrl (clientForUrl ⟨[], 0⟩ ⟨"", none, none, "/a"⟩).1
        ⟨"", none, none, "/b"⟩).2 = .ok i) :=
  ⟨client_cache_same_instance.1 ⟨[], 0⟩ _ _ (by decide) (by decide) (by decide),
   client_cache_same_instance.2 ⟨[], 0⟩ ⟨"", none, none, "/a"⟩ ⟨"", none, none, "/b"⟩
     rfl rfl (by decide) (by decide) (by decide) (by decide)⟩

/-- The source regex `1?[0-7]{3}` accepts exactly the spec's shape. -/
theorem matchesModeRegex_iff (cs : List Char) :
    matchesModeRegex cs = true ↔ specModeShape cs := by
  constructor
  · intro h
    rcases cs with _ | ⟨a, _ | ⟨b, _ | ⟨c, _ | ⟨d, rest⟩⟩⟩⟩
    · simp [matchesModeRegex] at h
    · simp [matchesModeRegex] at h
    · simp [matchesModeRegex] at h
    · simp only [matchesModeRegex, Bool.and_eq_true, isOctDigit,
        decide_eq_true_eq] at h
      obtain ⟨⟨ha, hb⟩, hc⟩ := h
      exact Or.inl ⟨a, b, c, rfl, ha, hb, hc⟩
    · rcases rest with _ | ⟨e, rest⟩
      · by_cases ha : a = '1'
        · subst ha
          simp only [matchesModeRegex, Bool.and_eq_true, isOctDigit,
            decide_eq_true_eq] at h
          obtain ⟨⟨ha, hb⟩, hc⟩ := h
          exact Or.inr ⟨b, c, d, rfl, ha, hb, hc⟩
        · exfalso
          rw [show matchesModeRegex [a, b, c, d] =
              (if a = '1' then isOctDigit b && isOctDigit c && isOctDigit d
               else false) from by
            by_cases ha' : a = '1' <;> simp [matchesModeRegex, ha']] at h
          simp [ha] at h
      · simp [matchesModeRegex] at h
  · intro h
    rcases h with ⟨a, b, c, rfl, ha, hb, hc⟩ | ⟨a, b, c, rfl, ha, hb, hc⟩ <;>
      simp [matchesModeRegex, isOctDigit, ha.1, ha.2, hb.1, hb.2, hc.1, hc.2]

/-- C2: `chmod` accepts exactly the mode strings of shape optional
leading `1` plus three octal digits, parsing them base-8 — `644` and
`1755` are accepted with their octal values, while `0644`, `999` and
`12345` raise a validation error; on any parse error the command issues
no client call. -/
theorem chmod_mode_parsing :
    parseMode "644" = .ok 420 ∧
    parseMode "1755" = .ok 1005 ∧
    parseMode "0644" = .error (.invalidMode "0644") ∧
    parseMode "999" = .error (.invalidMode "999") ∧
    parseMode "12345" = .error (.invalidMode "12345") ∧
    (∀ s : String, (∃ n, parseMode s = .ok n) ↔ specModeShape s.data) ∧
    (∀ env recursive urls (s : String) (e : CliError), parseMode s = .error e →
      chmodCmd env recursive s urls = ([], some e)) := by
  refine ⟨rfl, rfl, rfl, rfl, rfl, ?_, ?_⟩
  · intro s
    rw [← matchesModeRegex_iff]
    constructor
    · rintro ⟨n, hn⟩
      by_contra hm
      simp [parseMode, hm] at hn
    · intro hm
      exact ⟨parseOct s.data, by simp [parseMode, hm]⟩
  · intro env recursive urls s e he
    simp [chmodCmd, he]

/-- C2 witness: `999` fails validation and a `chmod 999` invocation
makes no `set_permission` call; `644` is accepted with value `0o644`. -/
theorem chmod_mode_parsing_witness :
    chmodCmd envEmpty false "999" [⟨"hdfs", some "nn", none, "/x"⟩] =
      ([], some (.invalidMode "999")) ∧
    (∃ n, parseMode "644" = .ok n) :=
  ⟨chmod_mode_parsing.2.2.2.2.2.2 envEmpty false [⟨"hdfs", some "nn", none, "/x"⟩]
      "999" (.invalidMode "999") rfl,
   (chmod_mode_parsing.2.2.2.2.2.1 "644").2
     (Or.inl ⟨'6', '4', '4', rfl, by decide, by decide, by decide⟩)⟩

/-- C8: `chown` splits its owner argument on `:` — `bob:staff` gives
both parts, `:staff` a null owner, `bob` a null group — and any argument
with two or more colons raises a validation error with no `set_owner`
call issued. -/
theorem chown_owner_parsing :
    parseOwner "bob:staff" = .ok (some "bob", some "staff") ∧
    parseOwner ":staff" = .ok (none, some "staff") ∧
    parseOwner "bob" = .ok (some "bob", none) ∧
    parseOwner "a:b:c" = .error (.invalidOwner "a:b:c") ∧
    (∀ (s : String), 2 ≤ s.data.count ':' →
      ∀ env recursive urls,
        chownCmd env recursive s urls = ([], some (.invalidOwner s))) := by
  refine ⟨rfl, rfl, rfl, rfl, ?_⟩
  intro s hs env recursive urls
  have hlen : 3 ≤ (splitColon s.data).length := by
    rw [splitColon_length]; omega
  have hparse : parseOwner s = .error (.invalidOwner s) := by
    unfold parseOwner
    rcases h : splitColon s.data with _ | ⟨x, _ | ⟨y, _ | ⟨z, t⟩⟩⟩ <;>
      rw [h] at hlen <;> simp at hlen ⊢
  simp [chownCmd, hparse]

/-- C8 witness: `chown a:b:c` fails validation before any client call. -/
theorem chown_owner_parsing_witness :
    chownCmd envEmpty false "a:b:c" [⟨"hdfs", some "nn", none, "/f"⟩] =
      ([], some (.invalidOwner "a:b:c")) :=
  chown_owner_parsing.2.2.2.2 "a:b:c" (by decide) envEmpty false
    [⟨"hdfs", some "nn", none, "/f"⟩]

/-- C10: a trailing colon after a non-empty colon-free owner makes the
group an empty string, while the same owner without the colon passes a
null group; correspondingly `chown bob:` issues `set_owner(path, bob,
empty-string)` and `chown bob` issues `set_owner(path, bob, null)`. -/
theorem chown_trailing_colon_group :
    (∀ o : String, o.data ≠ [] → ':' ∉ o.data →
      parseOwner (o ++ ":") = .ok (some o, some "") ∧
      parseOwner o = .ok (some o, none)) ∧
    (∀ env u, urlCheck u = none →
      chownCmd env false "bob:" [u] = ([(u.path, some "bob", some "")], none) ∧
      chownCmd env false "bob" [u] = ([(u.path, some "bob", none)], none)) := by
  constructor
  · intro o hne hnc
    constructor
    · unfold parseOwner
      rw [show (o ++ ":").data = o.data ++ [':'] from String.data_append o ":",
        splitColon_trailing o.data hnc]
      simp [hne]
    · unfold parseOwner
      rw [splitColon_no_colon o.data hnc]
  · intro env u hu
    constructor <;> simp [chownCmd, parseOwner, splitColon, chownRun, hu, globPath]

/-- C10 witness: the two behaviors at owner `bob` on a concrete path. -/
theorem chown_trailing_colon_group_witness :
    parseOwner ("bob" ++ ":") = .ok (some "bob", some "") ∧
    chownCmd envEmpty false "bob:" [⟨"hdfs", some "nn", none, "/f"⟩] =
      ([("/f", some "bob", some "")], none) :=
  ⟨(chown_trailing_colon_group.1 "bob" (by decide) (by decide)).1,
   (chown_trailing_colon_group.2 envEmpty ⟨"hdfs", some "nn", none, "/f"⟩ rfl).1⟩

/-- An environment whose recursive listing of `/d` holds the directory
itself and two files, as in the spec's recursive-chmod example. -/
def envListing : Env :=
  ⟨fun _ => none, fun _ => none,
   fun p r =>
     if p = "/d" ∧ r = true then
       [⟨"/d", true, 493, 0, 0⟩, ⟨"/d/f1", false, 420, 0, 0⟩,
        ⟨"/d/f2", false, 420, 0, 0⟩]
     else []⟩

/-- C6: recursive `chmod` issues one `set_permission(entry.path, m)` call
with the identical parsed mode for every entry of the recursive listing
`list_status(path, true)`, in listing order — the root and descendants
alike when the listing contains them, with no distinction by entry
kind. -/
theorem chmod_recursive_uniform :
    ∀ env (u : Url) (mode : String) (m : Nat),
      parseMode mode = .ok m → urlCheck u = none →
      chmodCmd env true mode [u] =
        ((env.listStatus u.path true).map (fun st => (st.path, m)), none) ∧
      ∀ st ∈ env.listStatus u.path true, (st.path, m) ∈ (chmodCmd env true mode [u]).1 := by
  intro env u mode m hm hu
  have hcmd : chmodCmd env true mode [u] =
      ((env.listStatus u.path true).map (fun st => (st.path, m)), none) := by
    simp [chmodCmd, hm, chmodRun, hu, globPath]
  refine ⟨hcmd, ?_⟩
  intro st hst
  rw [hcmd]
  exact List.mem_map.mpr ⟨st, hst, rfl⟩

/-- C6 witness: `chmod -R 755 /d` in the three-entry environment sets
mode `0o755` on the directory and both files. -/
theorem chmod_recursive_uniform_witness :
    chmodCmd envListing true "755" [⟨"hdfs", some "nn", none, "/d"⟩] =
      ([("/d", 493), ("/d/f1", 493), ("/d/f2", 493)], none) :=
  (chmod_recursive_uniform envListing ⟨"hdfs", some "nn", none, "/d"⟩
    "755" 493 rfl rfl).1.trans (by decide)

/-- If every source URL matches the first URL's scheme and hostname, the
nameservice check passes (ports are never compared). -/
theorem verifyNameservicesMatch_ok (first : Url) (urls : List Url)
    (h : ∀ u ∈ urls, u.scheme = first.scheme ∧ u.host = first.host) :
    verifyNameservicesMatch first urls = none := by
  induction urls with
  | nil => rfl
  | cons v rest ih =>
    obtain ⟨hs, hh⟩ := h v (List.mem_cons_self v rest)
    have : ¬(first.scheme ≠ v.scheme ∨ first.host ≠ v.host) := by
      push_neg
      exact ⟨hs.symm, hh.symm⟩
    simp only [verifyNameservicesMatch, if_neg this]
    exact ih fun u hu => h u (List.mem_cons_of_mem v hu)

/-- If some source URL's scheme or hostname differs from the first URL's,
the nameservice check raises, naming the first URL's identity and that of
the first mismatching source. -/
theorem verifyNameservicesMatch_mismatch (first : Url) (urls : List Url)
    (h : ∃ u ∈ urls, u.scheme ≠ first.scheme ∨ u.host ≠ first.host) :
    ∃ u ∈ urls, (u.scheme ≠ first.scheme ∨ u.host ≠ first.host) ∧
      verifyNameservicesMatch first urls =
        some (.nameserviceMismatch (identStr first) (identStr u)) := by
  induction urls with
  | nil => simp at h
  | cons v rest ih =>
    by_cases hv : first.scheme ≠ v.scheme ∨ first.host ≠ v.host
    · refine ⟨v, List.mem_cons_self v rest, ?_, ?_⟩
      · rcases hv with hv | hv
        · exact Or.inl (Ne.symm hv)
        · exact Or.inr (Ne.symm hv)
      · simp only [verifyNameservicesMatch, if_pos hv]
    · push_neg at hv
      have hrest : ∃ u ∈ rest, u.scheme ≠ first.scheme ∨ u.host ≠ first.host := by
        rcases h with ⟨u, hu, hne⟩
        rcases List.mem_cons.mp hu with rfl | hu'
        · rcases hne with hne | hne
          · exact absurd hv.1.symm hne
          · exact absurd hv.2.symm hne
        · exact ⟨u, hu', hne⟩
      obtain ⟨u, hu, hne, heq⟩ := ih hrest
      refine ⟨u, List.mem_cons_of_mem v hu, hne, ?_⟩
      have : ¬(first.scheme ≠ v.scheme ∨ first.host ≠ v.host) := by
        push_neg
        exact hv
      simp only [verifyNameservicesMatch, if_neg this]
      exact heq

/-- C4: if some source's scheme or hostname differs from the
destination's, `mv` raises a validation error naming both identities and
issues no rename; and the check passes whenever scheme and hostname all
agree, so URLs differing only in port pass it. -/
theorem mv_nameservice_validation :
    (∀ env (srcs : List Url) (dst : Url),
      (∃ u ∈ srcs, u.scheme ≠ dst.scheme ∨ u.host ≠ dst.host) →
      ∃ u ∈ srcs, (u.scheme ≠ dst.scheme ∨ u.host ≠ dst.host) ∧
        mvCmd env srcs dst =
          ([], some (.nameserviceMismatch (identStr dst) (identStr u)))) ∧
    (∀ (dst : Url) (srcs : List Url),
      (∀ u ∈ srcs, u.scheme = dst.scheme ∧ u.host = dst.host) →
      verifyNameservicesMatch dst srcs = none) := by
  constructor
  · intro env srcs dst h
    obtain ⟨u, hu, hne, heq⟩ := verifyNameservicesMatch_mismatch dst srcs h
    exact ⟨u, hu, hne, by simp [mvCmd, heq]⟩
  · intro dst srcs h
    exact verifyNameservicesMatch_ok dst srcs h

/-- C4 witness: moving `hdfs://a/x` to `hdfs://b/y` fails the check with
no rename issued, while a port-only difference passes the check. -/
theorem mv_nameservice_validation_witness :
    (∃ u ∈ [(⟨"hdfs", some "a", none, "/x"⟩ : Url)],
      (u.scheme ≠ "hdfs" ∨ u.host ≠ some "b") ∧
      mvCmd envEmpty [⟨"hdfs", some "a", none, "/x"⟩] ⟨"hdfs", some "b", none, "/y"⟩ =
        ([], some (.nameserviceMismatch (identStr ⟨"hdfs", some "b", none, "/y"⟩)
          (identStr u)))) ∧
    verifyNameservicesMatch ⟨"hdfs", some "a", some 8020, "/y"⟩
      [⟨"hdfs", some "a", some 9000, "/x"⟩] = none :=
  ⟨mv_nameservice_validation.1 envEmpty [⟨"hdfs", some "a", none, "/x"⟩]
      ⟨"hdfs", some "b", none, "/y"⟩
      ⟨⟨"hdfs", some "a", none, "/x"⟩, List.mem_singleton.mpr rfl,
        Or.inr (by decide)⟩,
   mv_nameservice_validation.2 ⟨"hdfs", some "a", some 8020, "/y"⟩
      [⟨"hdfs", some "a", some 9000, "/x"⟩]
      (fun u hu => by
        rcases List.mem_singleton.mp hu with rfl
        exact ⟨rfl, rfl⟩)⟩

/-- C3: a download with `force` false onto an existing local path fails
with the already-exists error, issues no remote call, and leaves the
local filesystem exactly as it was. -/
theorem download_exists_no_force :
    ∀ env os fs src dst preserve,
      localExists fs dst = true →
      downloadFile env os fs src dst false preserve =
        ⟨[], fs, some (.fileExists dst)⟩ := by
  intro env os fs src dst preserve h
  simp [downloadFile, h]

/-- A local filesystem holding one file at `/l`. -/
def fsOne : LocalFS :=
  fun p => if p = "/l" then some ⟨[7], 1, 2, 420⟩ else none

/-- C3 witness: downloading onto the existing `/l` without force fails
with no remote call and `/l` untouched. -/
theorem download_exists_no_force_witness :
    downloadFile envEmpty osZero fsOne "/r" "/l" false false =
      ⟨[], fsOne, some (.fileExists "/l")⟩ :=
  download_exists_no_force envEmpty osZero fsOne "/r" "/l" false rfl

/-- C7: a preserving download whose copy completes fetches the remote
`FileStatus` and stamps the remote times divided by 1000 and the remote
permission onto the local file. -/
theorem download_preserve_sets_attributes :
    ∀ env os fs src dst force data st,
      (!force && localExists fs dst) = false →
      env.files src = some data →
      env.info src = some st →
      downloadFile env os fs src dst force true =
        ⟨[.read src, .getFileInfo src],
         fsChmodLocal (fsUtime (fsWrite os fs dst data) dst
           ((st.access_time : ℚ) / 1000) ((st.modification_time : ℚ) / 1000))
           dst st.permission,
         none⟩ ∧
      (downloadFile env os fs src dst force true).fs dst =
        some ⟨data, (st.access_time : ℚ) / 1000, (st.modification_time : ℚ) / 1000,
          st.permission⟩ := by
  intro env os fs src dst force data st hguard hdata hinfo
  have hcmd : downloadFile env os fs src dst force true =
      ⟨[.read src, .getFileInfo src],
       fsChmodLocal (fsUtime (fsWrite os fs dst data) dst
         ((st.access_time : ℚ) / 1000) ((st.modification_time : ℚ) / 1000))
         dst st.permission,
       none⟩ := by
    simp [downloadFile, hguard, hdata, hinfo]
  refine ⟨hcmd, ?_⟩
  rw [hcmd]
  simp [fsChmodLocal, fsUtime, fsWrite]

/-- An environment holding one remote file `/r` with known metadata. -/
def envRemote : Env :=
  ⟨fun p => if p = "/r" then some [1, 2, 3] else none,
   fun p => if p = "/r" then some ⟨"/r", false, 420, 2000, 3000⟩ else none,
   fun _ _ => []⟩

/-- C7 witness: downloading `/r` (times 2000ms/3000ms, mode `0o644`) with
preserve yields a local file with times 2s/3s and mode `0o644`. -/
theorem download_preserve_sets_attributes_witness :
    (downloadFile envRemote osZero fsEmpty "/r" "/l" false true).fs "/l" =
      some ⟨[1, 2, 3], (2000 : ℚ) / 1000, (3000 : ℚ) / 1000, 420⟩ :=
  (download_preserve_sets_attributes envRemote osZero fsEmpty "/r" "/l" false
    [1, 2, 3] ⟨"/r", false, 420, 2000, 3000⟩ rfl rfl rfl).2

/-- C9: upload ignores `force` and `preserve` entirely — identical
results for any flag values, never an already-exists error (its only
error is local-file-not-found), and on success the remote destination
holds exactly the local bytes. -/
theorem upload_ignores_flags :
    ∀ fs remote src dst f₁ p₁ f₂ p₂,
      uploadFile fs remote src dst f₁ p₁ = uploadFile fs remote src dst f₂ p₂ ∧
      (∀ e, (uploadFile fs remote src dst f₁ p₁).2 = some e →
        ∃ p, e = .notFound p) ∧
      (∀ f, fs src = some f →
        (uploadFile fs remote src dst f₁ p₁).2 = none ∧
        (uploadFile fs remote src dst f₁ p₁).1 dst = some f.data) := by
  intro fs remote src dst f₁ p₁ f₂ p₂
  refine ⟨rfl, ?_, ?_⟩
  · intro e he
    cases h : fs src with
    | none =>
      refine ⟨src, ?_⟩
      simp [uploadFile, h] at he
      exact he.symm
    | some f => simp [uploadFile, h] at he
  · intro f hf
    simp [uploadFile, hf]

/-- A local filesystem holding one file at `/a` with bytes `[9]`. -/
def fsUp : LocalFS :=
  fun p => if p = "/a" then some ⟨[9], 0, 0, 420⟩ else none

/-- C9 witness: uploading `/a` over an existing remote `/b` succeeds
identically with all flag combinations and copies the bytes. -/
theorem upload_ignores_flags_witness :
    uploadFile fsUp (fun _ => some [0]) "/a" "/b" true true =
      uploadFile fsUp (fun _ => some [0]) "/a" "/b" false false ∧
    (uploadFile fsUp (fun _ => some [0]) "/a" "/b" true true).2 = none ∧
    (uploadFile fsUp (fun _ => some [0]) "/a" "/b" true true).1 "/b" = some [9] :=
  ⟨(upload_ignores_flags fsUp (fun _ => some [0]) "/a" "/b" true true false false).1,
   (upload_ignores_flags fsUp (fun _ => some [0]) "/a" "/b" true true false
      false).2.2 ⟨[9], 0, 0, 420⟩ rfl⟩

end HdfsCli
